import Mathlib

/-!
Verification of the Chat Completions request assembly
(`codex-rs/codex-api/src/requests/chat.rs`).

The embedding below mirrors `ChatRequestBuilder::build` and its helper
functions over a JSON-shaped value tree `J`.  Protocol data types
(`ResponseItem`, `ContentItem`, ...) come from the `codex_protocol` crate,
which is not part of this repository snapshot; they are modelled from the
spec's data-model section, restricted to the fields `chat.rs` reads.
-/

namespace Codex

/-- JSON-shaped value tree standing for `serde_json::Value`.  Objects are
association lists in insertion order; `insertKV` mirrors `Map::insert`
(replace an existing key in place, else append). -/
inductive J where
  | null
  | bool (b : Bool)
  | num (n : Int)
  | str (s : String)
  | arr (xs : List J)
  | obj (kvs : List (String × J))

/-- Whether every character of a string is whitespace.  This is the model of
Rust's `text.trim().is_empty()` check (a string trims to empty exactly when
all of its characters are whitespace). -/
def isBlank (s : String) : Bool := s.data.all Char.isWhitespace

/-- Modelled from the spec: the source tags of reasoning fragments, a total
order `plain reasoning < reasoning-content stream < structured
reasoning-details` (the `ReasoningSource` enum of `codex_protocol`). -/
inductive ReasoningSource where
  | reasoning
  | reasoningContent
  | reasoningDetails
deriving DecidableEq

/-- Modelled from the spec: message content parts (`ContentItem`). -/
inductive ContentItem where
  | inputText (text : String)
  | outputText (text : String)
  | inputImage (image_url : String)

/-- Modelled from the spec: text fragments of a reasoning item
(`ReasoningItemContent`). -/
inductive ReasoningItemContent where
  | reasoningText (text : String)
  | text (text : String)

/-- Modelled from the spec: content parts of a function call output
(`FunctionCallOutputContentItem`). -/
inductive FunctionCallOutputContentItem where
  | inputText (text : String)
  | inputImage (image_url : String)

/-- Modelled from the spec: the payload of a function call output, raw text
plus optional structured content items (`FunctionCallOutputPayload`). -/
structure FunctionCallOutputPayload where
  content : String
  content_items : Option (List FunctionCallOutputContentItem)

/-- Modelled from the spec: one history item (`ResponseItem` of
`codex_protocol`), restricted to the fields `chat.rs` reads.  The
`localShellCall` status and action are serialized verbatim, so they are kept
as opaque `J` values. -/
inductive ResponseItem where
  | message (role : String) (content : List ContentItem)
  | functionCall (name : String) (arguments : String) (call_id : String)
  | localShellCall (id : Option String) (status : J) (action : J)
  | functionCallOutput (call_id : String) (output : FunctionCallOutputPayload)
  | customToolCall (id : String) (name : String) (input : String)
  | customToolCallOutput (call_id : String) (output : String)
  | reasoning (content : Option (List ReasoningItemContent))
      (reasoning_details : Option J) (reasoning_source : Option ReasoningSource)
  | webSearchCall
  | ghostSnapshot
  | compaction
  | other

/-- The reasoning accumulator of `chat.rs` (`ReasoningAttachment`). -/
structure ReasoningAttachment where
  text : String
  details : Option J
  source : Option ReasoningSource

/-- The position-keyed side table `reasoning_by_anchor_index`.  The Rust
code uses a `HashMap<usize, _>`; only `entry`-style insert/merge and `get`
are performed on it, so an association list with those operations is a
faithful model. -/
abbrev AnchorMap := List (Nat × ReasoningAttachment)

/-- Priority rank of a reasoning source (`reasoning_source_rank`). -/
def reasoning_source_rank : ReasoningSource → Nat
  | ReasoningSource.reasoning => 0
  | ReasoningSource.reasoningContent => 1
  | ReasoningSource.reasoningDetails => 2

/-- Source-tag merge (`merge_reasoning_source`): replace the target only
when the incoming tag's rank is strictly greater. -/
def merge_reasoning_source (target incoming : Option ReasoningSource) : Option ReasoningSource :=
  match incoming with
  | none => target
  | some inc =>
    match target with
    | none => some inc
    | some existing =>
      if reasoning_source_rank existing < reasoning_source_rank inc then some inc
      else some existing

/-- Attachment merge (`merge_reasoning_attachment`): concatenate text (skip
an empty incoming text), last-write-wins on the details blob, priority
tie-break on the source tag. -/
def merge_reasoning_attachment (target incoming : ReasoningAttachment) : ReasoningAttachment :=
  { text := if incoming.text.isEmpty then target.text else target.text ++ incoming.text
    details := if incoming.details.isSome then incoming.details else target.details
    source := merge_reasoning_source target.source incoming.source }

/-- The `entry(idx).and_modify(merge).or_insert(attachment)` operation on
the anchor table. -/
def anchorInsert : AnchorMap → Nat → ReasoningAttachment → AnchorMap
  | [], a, att => [(a, att)]
  | (k, v) :: rest, a, att =>
    if k = a then (k, merge_reasoning_attachment v att) :: rest
    else (k, v) :: anchorInsert rest a att

/-- The `get(&idx)` operation on the anchor table. -/
def lookupAnchor : AnchorMap → Nat → Option ReasoningAttachment
  | [], _ => none
  | (k, v) :: rest, a => if k = a then some v else lookupAnchor rest a

/-- Removal of one anchor entry (used to state that a discarded attachment
influences nothing). -/
def eraseAnchor : AnchorMap → Nat → AnchorMap
  | [], _ => []
  | (k, v) :: rest, a =>
    if k = a then eraseAnchor rest a else (k, v) :: eraseAnchor rest a

/-- Lookup in a JSON object association list. -/
def lookupKV : List (String × J) → String → Option J
  | [], _ => none
  | (k, v) :: rest, key => if k = key then some v else lookupKV rest key

/-- The `Map::insert` operation: replace an existing key in place, else
append. -/
def insertKV : List (String × J) → String → J → List (String × J)
  | [], key, v => [(key, v)]
  | (k, w) :: rest, key, v =>
    if k = key then (key, v) :: rest else (k, w) :: insertKV rest key v

/-- Top-level field lookup on a wire message. -/
def jLookup : J → String → Option J
  | J.obj kvs, key => lookupKV kvs key
  | _, _ => none

/-- The Role Tracker: the first loop of `build`, computing
`last_emitted_role`. -/
def lastEmittedRole (input : List ResponseItem) : Option String :=
  input.foldl
    (fun acc item =>
      match item with
      | ResponseItem.message role _ => some role
      | ResponseItem.functionCall _ _ _ => some "assistant"
      | ResponseItem.localShellCall _ _ _ => some "assistant"
      | ResponseItem.functionCallOutput _ _ => some "tool"
      | _ => acc)
    none

/-- The second loop of `build`, computing `last_user_index`. -/
def lastUserIndex (input : List ResponseItem) : Option Nat :=
  input.enum.foldl
    (fun acc p =>
      match p.2 with
      | ResponseItem.message role _ => if role = "user" then some p.1 else acc
      | _ => acc)
    none

/-- Concatenation of the text fragments of a reasoning item. -/
def reasoningText (content : Option (List ReasoningItemContent)) : String :=
  match content with
  | none => ""
  | some items =>
    items.foldl
      (fun acc e =>
        match e with
        | ReasoningItemContent.reasoningText t => acc ++ t
        | ReasoningItemContent.text t => acc ++ t)
      ""

/-- Whether an optional history item is an assistant-role `Message` (the
anchor test for the preceding position). -/
def isAssistantMessage : Option ResponseItem → Bool
  | some (ResponseItem.message role _) => role == "assistant"
  | _ => false

/-- Whether an optional history item is a valid following anchor: a
`FunctionCall`, a `LocalShellCall`, or an assistant-role `Message`. -/
def isFollowAnchor : Option ResponseItem → Bool
  | some (ResponseItem.functionCall _ _ _) => true
  | some (ResponseItem.localShellCall _ _ _) => true
  | some (ResponseItem.message role _) => role == "assistant"
  | _ => false

/-- Whether position `idx` is skipped because it does not lie strictly
after the last user turn. -/
def skipIdx (lastUser : Option Nat) (idx : Nat) : Bool :=
  match lastUser with
  | some u => decide (idx ≤ u)
  | none => false

/-- The attachment built for one reasoning item: concatenated text, details
blob, and the source tag defaulted to `reasoningDetails` when absent but a
details blob is present. -/
def attachmentOf (content : Option (List ReasoningItemContent))
    (details : Option J) (source : Option ReasoningSource) : ReasoningAttachment :=
  { text := reasoningText content
    details := details
    source :=
      match source with
      | some s => some s
      | none => details.map fun _ => ReasoningSource.reasoningDetails }

/-- One step of the Reasoning Resolver loop: processes the history item at
position `idx`, updating the anchor table. -/
def resolveStep (input : List ResponseItem) (lastUser : Option Nat)
    (m : AnchorMap) (idx : Nat) : AnchorMap :=
  if skipIdx lastUser idx then m
  else
    match input[idx]? with
    | some (ResponseItem.reasoning content details source) =>
      if isBlank (reasoningText content) && details.isNone then m
      else
        let attachment := attachmentOf content details source
        if decide (0 < idx) && isAssistantMessage input[idx - 1]? then
          anchorInsert m (idx - 1) attachment
        else if isFollowAnchor input[idx + 1]? then
          anchorInsert m (idx + 1) attachment
        else m
    | _ => m

/-- The Reasoning Resolver: the anchor table `reasoning_by_anchor_index`
after the resolver loop of `build`.  It stays empty when the tracked last
role is `user`. -/
def resolveReasoning (input : List ResponseItem) : AnchorMap :=
  if lastEmittedRole input = some "user" then []
  else (List.range input.length).foldl (resolveStep input (lastUserIndex input)) []

/-- Concatenated plain text of message content parts. -/
def concatText (content : List ContentItem) : String :=
  content.foldl
    (fun acc c =>
      match c with
      | ContentItem.inputText t => acc ++ t
      | ContentItem.outputText t => acc ++ t
      | ContentItem.inputImage _ => acc)
    ""

/-- Whether message content contains an image part (`saw_image`). -/
def sawImage (content : List ContentItem) : Bool :=
  content.any fun c =>
    match c with
    | ContentItem.inputImage _ => true
    | _ => false

/-- Structured JSON list of message content parts (`items`). -/
def contentParts (content : List ContentItem) : List J :=
  content.map fun c =>
    match c with
    | ContentItem.inputText t => J.obj [("type", J.str "text"), ("text", J.str t)]
    | ContentItem.outputText t => J.obj [("type", J.str "text"), ("text", J.str t)]
    | ContentItem.inputImage url =>
      J.obj [("type", J.str "image_url"), ("image_url", J.obj [("url", J.str url)])]

/-- Content of a tool-role wire message for a `FunctionCallOutput`. -/
def functionCallOutputContent (output : FunctionCallOutputPayload) : J :=
  match output.content_items with
  | some items =>
    J.arr (items.map fun it =>
      match it with
      | FunctionCallOutputContentItem.inputText t =>
        J.obj [("type", J.str "text"), ("text", J.str t)]
      | FunctionCallOutputContentItem.inputImage url =>
        J.obj [("type", J.str "image_url"), ("image_url", J.obj [("url", J.str url)])])
  | none => J.str output.content

/-- The reasoning-fold sub-procedure (`attach_reasoning_fields`), acting on
the key-value list of a wire message object. -/
def attach_reasoning_fields (kvs : List (String × J)) (r : ReasoningAttachment) :
    List (String × J) :=
  match r.details with
  | some details => insertKV kvs "reasoning_details" details
  | none =>
    if isBlank r.text then kvs
    else
      let field :=
        match r.source with
        | some ReasoningSource.reasoningContent => "reasoning_content"
        | _ => "reasoning"
      insertKV kvs field (J.str r.text)

/-- The conditional fold at an emission site: apply
`attach_reasoning_fields` when the anchor table holds an entry for this
position. -/
def foldReasoning (anchors : AnchorMap) (idx : Nat) (kvs : List (String × J)) :
    List (String × J) :=
  match lookupAnchor anchors idx with
  | some r => attach_reasoning_fields kvs r
  | none => kvs

/-- One step of the Message Assembler: the per-item transformation of the
main loop of `build`.  Returns the updated `last_assistant_text` state and
the emitted wire message, if any. -/
def emitItem (anchors : AnchorMap) (idx : Nat) (la : Option String) :
    ResponseItem → Option String × Option J
  | ResponseItem.message role content =>
    let text := concatText content
    if role = "assistant" then
      if la = some text then (la, none)
      else
        (some text,
         some (J.obj (foldReasoning anchors idx
           [("role", J.str role), ("content", J.str text)])))
    else
      let contentValue := if sawImage content then J.arr (contentParts content) else J.str text
      (la, some (J.obj [("role", J.str role), ("content", contentValue)]))
  | ResponseItem.functionCall name arguments call_id =>
    (la, some (J.obj (foldReasoning anchors idx
      [("role", J.str "assistant"), ("content", J.null),
       ("tool_calls", J.arr [J.obj
         [("id", J.str call_id), ("type", J.str "function"),
          ("function", J.obj [("name", J.str name), ("arguments", J.str arguments)])]])])))
  | ResponseItem.localShellCall id status action =>
    (la, some (J.obj (foldReasoning anchors idx
      [("role", J.str "assistant"), ("content", J.null),
       ("tool_calls", J.arr [J.obj
         [("id", J.str (id.getD "")), ("type", J.str "local_shell_call"),
          ("status", status), ("action", action)]])])))
  | ResponseItem.functionCallOutput call_id output =>
    (la, some (J.obj [("role", J.str "tool"), ("tool_call_id", J.str call_id),
      ("content", functionCallOutputContent output)]))
  | ResponseItem.customToolCall id name input =>
    (la, some (J.obj [("role", J.str "assistant"), ("content", J.null),
      ("tool_calls", J.arr [J.obj [("id", J.str id), ("type", J.str "custom"),
        ("custom", J.obj [("name", J.str name), ("input", J.str input)])]])]))
  | ResponseItem.customToolCallOutput call_id output =>
    (la, some (J.obj [("role", J.str "tool"), ("tool_call_id", J.str call_id),
      ("content", J.str output)]))
  | ResponseItem.reasoning _ _ _ => (la, none)
  | ResponseItem.webSearchCall => (la, none)
  | ResponseItem.ghostSnapshot => (la, none)
  | ResponseItem.compaction => (la, none)
  | ResponseItem.other => (la, none)

/-- The `last_assistant_text` state transition of one assembler step. -/
def stepAssist (la : Option String) : ResponseItem → Option String
  | ResponseItem.message role content =>
    if role = "assistant" then some (concatText content) else la
  | _ => la

/-- The Message Assembler loop, instrumented with the originating history
position of every emitted wire message. -/
def assembleGoIdx (anchors : AnchorMap) : Nat → Option String → List ResponseItem →
    List (Nat × J)
  | _, _, [] => []
  | idx, la, item :: rest =>
    let r := emitItem anchors idx la item
    match r.2 with
    | some msg => (idx, msg) :: assembleGoIdx anchors (idx + 1) r.1 rest
    | none => assembleGoIdx anchors (idx + 1) r.1 rest

/-- The ordered wire-message array produced from the history (without the
leading system message). -/
def assembleMessages (input : List ResponseItem) (anchors : AnchorMap) : List J :=
  (assembleGoIdx anchors 0 none input).map Prod.snd

/-- The full `messages` array of the payload: the system message built from
the instructions, then the assembled history messages. -/
def chatMessages (instructions : String) (input : List ResponseItem) : List J :=
  J.obj [("role", J.str "system"), ("content", J.str instructions)]
    :: assembleMessages input (resolveReasoning input)

/-- Injection of the four reasoning-control fields
(`attach_reasoning_controls`). -/
def attach_reasoning_controls (payload : J) : J :=
  match payload with
  | J.obj kvs =>
    J.obj (insertKV (insertKV (insertKV (insertKV kvs
      "reasoning" (J.obj [("enabled", J.bool true)]))
      "reasoning_split" (J.bool true))
      "thinking" (J.obj [("type", J.str "enabled"), ("clear_thinking", J.bool false)]))
      "chat_template_kwargs" (J.obj [("thinking", J.bool true)]))
  | _ => payload

/-- The request body assembled by `build`. -/
def buildPayload (model instructions : String) (input : List ResponseItem)
    (tools : List J) (enableReasoning : Bool) : J :=
  let payload := J.obj
    [("model", J.str model),
     ("messages", J.arr (chatMessages instructions input)),
     ("stream", J.bool true),
     ("tools", J.arr tools)]
  if enableReasoning then attach_reasoning_controls payload else payload

/-- Modelled from the spec: the session-source descriptor
(`SessionSource` of `codex_protocol`); only whether it resolves to a named
subagent identity matters here. -/
inductive SessionSource where
  | subAgent (name : String)
  | exterior

/-- Modelled from the spec: the single failure kind of request assembly, a
header-construction failure (`ApiError`). -/
inductive ApiError where
  | header (message : String)

/-- Header sets, as ordered name-value pairs. -/
abbrev HeaderMap := List (String × String)

/-- Modelled from the spec: the header-builder collaborator
(`build_conversation_headers`), populating conversation and session
identifier headers when an identifier is present. -/
def build_conversation_headers : Option String → HeaderMap
  | some id => [("conversation_id", id), ("session_id", id)]
  | none => []

/-- Modelled from the spec: header insertion (`insert_header`). -/
def insert_header (headers : HeaderMap) (name value : String) : HeaderMap :=
  headers ++ [(name, value)]

/-- Modelled from the spec: the subagent-header collaborator
(`subagent_header`), returning the subagent identity when the session
source names one. -/
def subagent_header : Option SessionSource → Option String
  | some (SessionSource.subAgent name) => some name
  | _ => none

/-- Assembled request (`ChatRequest`). -/
structure ChatRequest where
  body : J
  headers : HeaderMap

/-- The full `ChatRequestBuilder::build`: payload assembly plus header
construction. -/
def build (model instructions : String) (input : List ResponseItem) (tools : List J)
    (enableReasoning : Bool) (conversationId : Option String)
    (sessionSource : Option SessionSource) : Except ApiError ChatRequest :=
  let headers := build_conversation_headers conversationId
  let headers :=
    match subagent_header sessionSource with
    | some s => insert_header headers "x-openai-subagent" s
    | none => headers
  Except.ok
    { body := buildPayload model instructions input tools enableReasoning
      headers := headers }

/-- Whether a history item is a `Reasoning` item. -/
def isReasoningItem : ResponseItem → Bool
  | ResponseItem.reasoning _ _ _ => true
  | _ => false

/-- History fixture where the reasoning item at position 2 has a valid
preceding anchor (the assistant message at position 1) and a valid
following anchor (the function call at position 3). -/
def c2Fixture : List ResponseItem :=
  [ResponseItem.message "user" [ContentItem.inputText "hi"],
   ResponseItem.message "assistant" [ContentItem.outputText "a"],
   ResponseItem.reasoning (some [ReasoningItemContent.text "why"]) none none,
   ResponseItem.functionCall "f" "" "call-1"]

/-- The fixture of the C1 scenario: user "hi", assistant "a", reasoning
"because", function call "f". -/
def c1Input : List ResponseItem :=
  [ResponseItem.message "user" [ContentItem.inputText "hi"],
   ResponseItem.message "assistant" [ContentItem.outputText "a"],
   ResponseItem.reasoning (some [ReasoningItemContent.reasoningText "because"]) none none,
   ResponseItem.functionCall "f" "" "call-1"]

/-- Fixture whose tracked last role is `user`. -/
def c4Fixture : List ResponseItem :=
  [ResponseItem.message "assistant" [ContentItem.outputText "a"],
   ResponseItem.reasoning (some [ReasoningItemContent.reasoningText "because"]) none none,
   ResponseItem.message "user" [ContentItem.inputText "hi"]]

/-! ### Basic lemmas about the association-list operations -/

theorem lookupKV_insertKV (kvs : List (String × J)) (k : String) (v : J) (key : String) :
    lookupKV (insertKV kvs k v) key = if k = key then some v else lookupKV kvs key := by
  induction kvs with
  | nil => simp [insertKV, lookupKV]
  | cons hd tl ih =>
    obtain ⟨k0, v0⟩ := hd
    by_cases h0 : k0 = k
    · subst h0
      by_cases h1 : k0 = key <;> simp [insertKV, lookupKV, h1]
    · by_cases h1 : k0 = key
      · subst h1
        have : ¬ k = k0 := fun h => h0 h.symm
        simp [insertKV, lookupKV, h0, this]
      · simp [insertKV, lookupKV, h0, h1, ih]

theorem lookupAnchor_anchorInsert (m : AnchorMap) (a : Nat) (att : ReasoningAttachment) :
    lookupAnchor (anchorInsert m a att) a
      = some (match lookupAnchor m a with
              | some v => merge_reasoning_attachment v att
              | none => att) := by
  induction m with
  | nil => simp [anchorInsert, lookupAnchor]
  | cons hd tl ih =>
    obtain ⟨k, v⟩ := hd
    by_cases hk : k = a
    · subst hk
      simp [anchorInsert, lookupAnchor]
    · simp [anchorInsert, lookupAnchor, hk, ih]

/-! ### C5: the attachment merge -/

/-- C5.  When two reasoning attachments merge onto the same anchor position
(`merge_reasoning_attachment`, invoked by the anchor-table insert), the
result concatenates the text (an empty incoming text changes nothing, which
coincides with plain concatenation), takes the incoming details blob only
when present, and keeps the higher-priority source tag, the existing one
winning ties. -/
theorem c5_merge_attachment (t i : ReasoningAttachment) :
    (merge_reasoning_attachment t i).text = t.text ++ i.text
    ∧ (merge_reasoning_attachment t i).details
        = (if i.details.isSome then i.details else t.details)
    ∧ (merge_reasoning_attachment t i).source
        = (match t.source, i.source with
           | none, s => s
           | some a, none => some a
           | some a, some b =>
             if reasoning_source_rank a < reasoning_source_rank b then some b else some a)
    ∧ ∀ (m : AnchorMap) (a : Nat), lookupAnchor m a = some t →
        lookupAnchor (anchorInsert m a i) a = some (merge_reasoning_attachment t i) := by
  refine ⟨?_, rfl, ?_, ?_⟩
  · unfold merge_reasoning_attachment
    by_cases h : i.text.isEmpty
    · rw [(String.isEmpty_iff i.text).mp h]
      simp
    · simp [h]
  · cases ht : t.source <;> cases hi : i.source <;>
      simp [merge_reasoning_attachment, merge_reasoning_source, ht, hi]
  · intro m a hm
    rw [lookupAnchor_anchorInsert, hm]

/-- Witness for C5 at concrete attachments: a lower-priority entry already
present at anchor 0 merges with a higher-priority incoming attachment. -/
theorem c5_merge_attachment_witness :
    lookupAnchor [(0, ⟨"ab", none, some ReasoningSource.reasoning⟩)] 0
        = some ⟨"ab", none, some ReasoningSource.reasoning⟩
    ∧ lookupAnchor
        (anchorInsert [(0, ⟨"ab", none, some ReasoningSource.reasoning⟩)] 0
          ⟨"cd", none, some ReasoningSource.reasoningContent⟩) 0
      = some (merge_reasoning_attachment ⟨"ab", none, some ReasoningSource.reasoning⟩
          ⟨"cd", none, some ReasoningSource.reasoningContent⟩) :=
  ⟨rfl,
   (c5_merge_attachment ⟨"ab", none, some ReasoningSource.reasoning⟩
       ⟨"cd", none, some ReasoningSource.reasoningContent⟩).2.2.2
     [(0, ⟨"ab", none, some ReasoningSource.reasoning⟩)] 0 rfl⟩

/-! ### C7: the reasoning-fold sub-procedure -/

/-- C7.  `attach_reasoning_fields`: a details blob is inserted under the
dedicated key and nothing else happens; otherwise blank text changes
nothing; otherwise the text goes under the stream-specific key for the
`reasoningContent` tag and under the generic `reasoning` key for any other
or absent tag. -/
theorem c7_attach_reasoning_fields (kvs : List (String × J)) (r : ReasoningAttachment) :
    (∀ d, r.details = some d →
      attach_reasoning_fields kvs r = insertKV kvs "reasoning_details" d)
    ∧ (r.details = none → isBlank r.text = true → attach_reasoning_fields kvs r = kvs)
    ∧ (r.details = none → isBlank r.text = false →
        r.source = some ReasoningSource.reasoningContent →
        attach_reasoning_fields kvs r = insertKV kvs "reasoning_content" (J.str r.text))
    ∧ (r.details = none → isBlank r.text = false →
        r.source ≠ some ReasoningSource.reasoningContent →
        attach_reasoning_fields kvs r = insertKV kvs "reasoning" (J.str r.text)) := by
  refine ⟨?_, ?_, ?_, ?_⟩
  · intro d hd
    simp [attach_reasoning_fields, hd]
  · intro hd hb
    simp [attach_reasoning_fields, hd, hb]
  · intro hd hb hs
    simp [attach_reasoning_fields, hd, hb, hs]
  · intro hd hb hs
    cases hsrc : r.source with
    | none => simp [attach_reasoning_fields, hd, hb, hsrc]
    | some s =>
      cases s with
      | reasoning => simp [attach_reasoning_fields, hd, hb, hsrc]
      | reasoningContent => exact absurd hsrc hs
      | reasoningDetails => simp [attach_reasoning_fields, hd, hb, hsrc]

/-! ### C8: the reasoning-control fields -/

/-- C8.  Enabling the reasoning flag appends exactly the four literal
control fields to the payload, independent of history, instructions and
tools, leaving the base fields unchanged; disabling it appends none. -/
theorem c8_reasoning_controls (model instructions : String) (input : List ResponseItem)
    (tools : List J) :
    buildPayload model instructions input tools true
      = J.obj
          [("model", J.str model),
           ("messages", J.arr (chatMessages instructions input)),
           ("stream", J.bool true),
           ("tools", J.arr tools),
           ("reasoning", J.obj [("enabled", J.bool true)]),
           ("reasoning_split", J.bool true),
           ("thinking", J.obj [("type", J.str "enabled"), ("clear_thinking", J.bool false)]),
           ("chat_template_kwargs", J.obj [("thinking", J.bool true)])]
    ∧ buildPayload model instructions input tools false
      = J.obj
          [("model", J.str model),
           ("messages", J.arr (chatMessages instructions input)),
           ("stream", J.bool true),
           ("tools", J.arr tools)] :=
  ⟨rfl, rfl⟩

/-! ### C2: anchor precedence in the Reasoning Resolver -/

/-- C2.  One resolver step on an eligible reasoning item (not positioned at
or before the last user turn, and not skipped as empty): if the preceding
item is an assistant-role message the attachment merges at position
`idx - 1` — regardless of what follows, so a valid preceding anchor always
wins; otherwise a following `FunctionCall`, `LocalShellCall` or
assistant-role message receives it at `idx + 1`; otherwise the table is
unchanged. -/
theorem c2_anchor_precedence (input : List ResponseItem) (lastUser : Option Nat)
    (m : AnchorMap) (idx : Nat) (content : Option (List ReasoningItemContent))
    (details : Option J) (source : Option ReasoningSource)
    (hitem : input[idx]? = some (ResponseItem.reasoning content details source))
    (hafter : skipIdx lastUser idx = false)
    (hkeep : (isBlank (reasoningText content) && details.isNone) = false) :
    (isAssistantMessage input[idx - 1]? = true →
      resolveStep input lastUser m idx
        = anchorInsert m (idx - 1) (attachmentOf content details source))
    ∧ (isAssistantMessage input[idx - 1]? = false → isFollowAnchor input[idx + 1]? = true →
      resolveStep input lastUser m idx
        = anchorInsert m (idx + 1) (attachmentOf content details source))
    ∧ (isAssistantMessage input[idx - 1]? = false → isFollowAnchor input[idx + 1]? = false →
      resolveStep input lastUser m idx = m) := by
  refine ⟨?_, ?_, ?_⟩
  · intro h1
    have hpos : 0 < idx := by
      rcases Nat.eq_zero_or_pos idx with h0 | h0
      · subst h0
        rw [show (0 : Nat) - 1 = 0 from rfl, hitem] at h1
        simp [isAssistantMessage] at h1
      · exact h0
    simp [resolveStep, hafter, hitem, hkeep, h1, hpos]
  · intro h1 h2
    simp [resolveStep, hafter, hitem, hkeep, h1, h2]
  · intro h1 h2
    simp [resolveStep, hafter, hitem, hkeep, h1, h2]

/-- Witness for C2: with both anchors valid, the preceding assistant
message at position 1 receives the attachment. -/
theorem c2_anchor_precedence_witness :
    c2Fixture[2]?
        = some (ResponseItem.reasoning (some [ReasoningItemContent.text "why"]) none none)
    ∧ skipIdx (some 0) 2 = false
    ∧ (isBlank (reasoningText (some [ReasoningItemContent.text "why"]))
        && (none : Option J).isNone) = false
    ∧ isAssistantMessage c2Fixture[1]? = true
    ∧ isFollowAnchor c2Fixture[3]? = true
    ∧ resolveStep c2Fixture (some 0) [] 2
        = anchorInsert [] 1 (attachmentOf (some [ReasoningItemContent.text "why"]) none none) :=
  ⟨rfl, rfl, rfl, rfl, rfl,
   (c2_anchor_precedence c2Fixture (some 0) [] 2
      (some [ReasoningItemContent.text "why"]) none none rfl rfl rfl).1 rfl⟩

/-! ### C1: the concrete anchor-precedence fixture -/

/-- C1, counterexample.  On the C1 fixture the claim fails: the
FunctionCall's wire message (position 2 of the assembled history messages)
carries no `reasoning` field — the text is not attached there. -/
theorem c1_counterexample :
    ¬ (jLookup ((assembleMessages c1Input (resolveReasoning c1Input)).getD 2 J.null) "reasoning"
          = some (J.str "because")
       ∧ jLookup ((assembleMessages c1Input (resolveReasoning c1Input)).getD 1 J.null) "reasoning"
          = none) :=
  fun h => nomatch h.1

/-- C1, amended.  On the C1 fixture the reasoning text "because" is
attached under the `reasoning` key to the wire message of the assistant
message "a" — its immediate predecessor, so rule (a) fires — and not to the
FunctionCall's wire message. -/
theorem c1_reasoning_attaches_to_assistant :
    jLookup ((assembleMessages c1Input (resolveReasoning c1Input)).getD 1 J.null) "reasoning"
        = some (J.str "because")
    ∧ jLookup ((assembleMessages c1Input (resolveReasoning c1Input)).getD 2 J.null) "reasoning"
        = none
    ∧ resolveReasoning c1Input = [(1, ⟨"because", none, none⟩)]
    ∧ (assembleMessages c1Input (resolveReasoning c1Input)).length = 3 :=
  ⟨rfl, rfl, rfl, rfl⟩

/-! ### C9: totality of the assembly -/

theorem lookupKV_attach_reasoning_fields (kvs : List (String × J))
    (r : ReasoningAttachment) (key : String) (h1 : key ≠ "reasoning_details")
    (h2 : key ≠ "reasoning") (h3 : key ≠ "reasoning_content") :
    lookupKV (attach_reasoning_fields kvs r) key = lookupKV kvs key := by
  unfold attach_reasoning_fields
  cases hd : r.details with
  | some d => simp [lookupKV_insertKV, Ne.symm h1]
  | none =>
    by_cases hb : isBlank r.text
    · simp [hb]
    · cases hs : r.source with
      | none => simp [hb, lookupKV_insertKV, Ne.symm h2]
      | some s =>
        cases s <;>
          simp [hb, lookupKV_insertKV, Ne.symm h2, Ne.symm h3]

/-- C9.  The assembly is total on conversation content: `build` returns a
request for every history, and a `LocalShellCall` with an absent id is
emitted with the empty-string default rather than an error. -/
theorem c9_build_total (model instructions : String) (input : List ResponseItem)
    (tools : List J) (enableReasoning : Bool) (conversationId : Option String)
    (sessionSource : Option SessionSource) :
    (∃ req, build model instructions input tools enableReasoning conversationId sessionSource
        = Except.ok req)
    ∧ ∀ (anchors : AnchorMap) (idx : Nat) (la : Option String) (status action : J),
        emitItem anchors idx la (ResponseItem.localShellCall none status action)
          = (la, some (J.obj (foldReasoning anchors idx
              [("role", J.str "assistant"), ("content", J.null),
               ("tool_calls", J.arr [J.obj
                 [("id", J.str ""), ("type", J.str "local_shell_call"),
                  ("status", status), ("action", action)]])])))
        ∧ jLookup (J.obj (foldReasoning anchors idx
              [("role", J.str "assistant"), ("content", J.null),
               ("tool_calls", J.arr [J.obj
                 [("id", J.str ""), ("type", J.str "local_shell_call"),
                  ("status", status), ("action", action)]])])) "tool_calls"
            = some (J.arr [J.obj
                [("id", J.str ""), ("type", J.str "local_shell_call"),
                 ("status", status), ("action", action)]]) := by
  refine ⟨⟨_, rfl⟩, ?_⟩
  intro anchors idx la status action
  refine ⟨rfl, ?_⟩
  cases h : lookupAnchor anchors idx with
  | none =>
    simp only [jLookup, foldReasoning, h]
    rfl
  | some r =>
    simp only [jLookup, foldReasoning, h]
    rw [lookupKV_attach_reasoning_fields _ _ _ (by decide) (by decide) (by decide)]
    rfl

/-- Witness for C7 at concrete inputs: the details branch and the generic
text branch. -/
theorem c7_attach_reasoning_fields_witness :
    attach_reasoning_fields [("role", J.str "assistant")] ⟨"t", some (J.str "d"), none⟩
        = insertKV [("role", J.str "assistant")] "reasoning_details" (J.str "d")
    ∧ attach_reasoning_fields [("role", J.str "assistant")] ⟨"t", none, none⟩
        = insertKV [("role", J.str "assistant")] "reasoning" (J.str "t") :=
  ⟨(c7_attach_reasoning_fields [("role", J.str "assistant")]
      ⟨"t", some (J.str "d"), none⟩).1 (J.str "d") rfl,
   (c7_attach_reasoning_fields [("role", J.str "assistant")]
      ⟨"t", none, none⟩).2.2.2 rfl rfl (fun h => nomatch h)⟩

end Codex

namespace Codex

/-! ### Assembler infrastructure -/

theorem emitItem_fst (anchors : AnchorMap) (idx : Nat) (la : Option String)
    (item : ResponseItem) : (emitItem anchors idx la item).1 = stepAssist la item := by
  cases item with
  | message role content =>
    by_cases hr : role = "assistant"
    · by_cases hla : la = some (concatText content) <;>
        simp [emitItem, stepAssist, hr, hla]
    · simp [emitItem, stepAssist, hr]
  | functionCall name arguments call_id => rfl
  | localShellCall id status action => rfl
  | functionCallOutput call_id output => rfl
  | customToolCall id name input => rfl
  | customToolCallOutput call_id output => rfl
  | reasoning content details source => rfl
  | webSearchCall => rfl
  | ghostSnapshot => rfl
  | compaction => rfl
  | other => rfl

theorem assembleGoIdx_cons_emit (anchors : AnchorMap) (idx : Nat) (la : Option String)
    (item : ResponseItem) (rest : List ResponseItem) (msg : J)
    (h : (emitItem anchors idx la item).2 = some msg) :
    assembleGoIdx anchors idx la (item :: rest)
      = (idx, msg) :: assembleGoIdx anchors (idx + 1) (stepAssist la item) rest := by
  simp only [assembleGoIdx, h, emitItem_fst]

theorem assembleGoIdx_cons_skip (anchors : AnchorMap) (idx : Nat) (la : Option String)
    (item : ResponseItem) (rest : List ResponseItem)
    (h : (emitItem anchors idx la item).2 = none) :
    assembleGoIdx anchors idx la (item :: rest)
      = assembleGoIdx anchors (idx + 1) (stepAssist la item) rest := by
  simp only [assembleGoIdx, h, emitItem_fst]

theorem emit_not_reasoning (anchors : AnchorMap) (idx : Nat) (la : Option String)
    (item : ResponseItem) (msg : J) (h : (emitItem anchors idx la item).2 = some msg) :
    isReasoningItem item = false := by
  cases item <;> simp_all [emitItem, isReasoningItem]

theorem assembleGoIdx_mem (anchors : AnchorMap) (l : List ResponseItem) :
    ∀ (idx : Nat) (la : Option String), ∀ p ∈ assembleGoIdx anchors idx la l,
      idx ≤ p.1 ∧ p.1 - idx < l.length
      ∧ ∃ item, l[p.1 - idx]? = some item ∧ isReasoningItem item = false := by
  induction l with
  | nil =>
    intro idx la p hp
    simp [assembleGoIdx] at hp
  | cons item rest ih =>
    intro idx la p hp
    cases h : (emitItem anchors idx la item).2 with
    | some msg =>
      rw [assembleGoIdx_cons_emit anchors idx la item rest msg h] at hp
      rcases List.mem_cons.mp hp with hp | hp
      · subst hp
        exact ⟨Nat.le_refl _, by simp, item, by simp, emit_not_reasoning anchors idx la item msg h⟩
      · obtain ⟨h1, h2, item2, h3, h4⟩ := ih (idx + 1) (stepAssist la item) p hp
        refine ⟨by omega, by simp; omega, item2, ?_, h4⟩
        have hs : p.1 - idx = (p.1 - (idx + 1)) + 1 := by omega
        rw [hs, List.getElem?_cons_succ]
        exact h3
    | none =>
      rw [assembleGoIdx_cons_skip anchors idx la item rest h] at hp
      obtain ⟨h1, h2, item2, h3, h4⟩ := ih (idx + 1) (stepAssist la item) p hp
      refine ⟨by omega, by simp; omega, item2, ?_, h4⟩
      have hs : p.1 - idx = (p.1 - (idx + 1)) + 1 := by omega
      rw [hs, List.getElem?_cons_succ]
      exact h3

theorem assembleGoIdx_length (anchors : AnchorMap) (l : List ResponseItem) :
    ∀ (idx : Nat) (la : Option String),
      (assembleGoIdx anchors idx la l).length ≤ l.length := by
  induction l with
  | nil => intro idx la; simp [assembleGoIdx]
  | cons item rest ih =>
    intro idx la
    cases h : (emitItem anchors idx la item).2 with
    | some msg =>
      rw [assembleGoIdx_cons_emit anchors idx la item rest msg h]
      simpa using ih (idx + 1) (stepAssist la item)
    | none =>
      rw [assembleGoIdx_cons_skip anchors idx la item rest h]
      have := ih (idx + 1) (stepAssist la item)
      simp
      omega

theorem assembleGoIdx_pairwise (anchors : AnchorMap) (l : List ResponseItem) :
    ∀ (idx : Nat) (la : Option String),
      ((assembleGoIdx anchors idx la l).map Prod.fst).Pairwise (fun a b => a < b) := by
  induction l with
  | nil => intro idx la; simp [assembleGoIdx]
  | cons item rest ih =>
    intro idx la
    cases h : (emitItem anchors idx la item).2 with
    | some msg =>
      rw [assembleGoIdx_cons_emit anchors idx la item rest msg h]
      simp only [List.map_cons, List.pairwise_cons]
      constructor
      · intro b hb
        obtain ⟨p, hp, hpb⟩ := List.mem_map.mp hb
        have := (assembleGoIdx_mem anchors rest (idx + 1) (stepAssist la item) p hp).1
        omega
      · exact ih (idx + 1) (stepAssist la item)
    | none =>
      rw [assembleGoIdx_cons_skip anchors idx la item rest h]
      exact ih (idx + 1) (stepAssist la item)

/-! ### C3: counting, ordering, and no standalone reasoning messages -/

/-- C3.  The assembler emits at most one wire message per history item (the
leading system message originates from the instructions, not from a history
item); the originating positions of the emitted messages are strictly
increasing, so emitted order matches history order; and no emitted message
originates from a `Reasoning` item. -/
theorem c3_order_preserving (input : List ResponseItem) :
    (assembleMessages input (resolveReasoning input)).length ≤ input.length
    ∧ ((assembleGoIdx (resolveReasoning input) 0 none input).map Prod.fst).Pairwise
        (fun a b => a < b)
    ∧ ∀ p ∈ assembleGoIdx (resolveReasoning input) 0 none input,
        ∃ item, input[p.1]? = some item ∧ isReasoningItem item = false := by
  refine ⟨?_, assembleGoIdx_pairwise _ _ 0 none, ?_⟩
  · unfold assembleMessages
    rw [List.length_map]
    exact assembleGoIdx_length _ _ 0 none
  · intro p hp
    obtain ⟨h1, h2, item, h3, h4⟩ := assembleGoIdx_mem _ input 0 none p hp
    refine ⟨item, ?_, h4⟩
    simpa using h3

/-- Witness for C3 on the C1 fixture: the bound and the
originating-item property at the first emitted message. -/
theorem c3_order_preserving_witness :
    (assembleMessages c1Input (resolveReasoning c1Input)).length ≤ c1Input.length
    ∧ ∃ item, c1Input[(0 : Nat)]? = some item ∧ isReasoningItem item = false :=
  ⟨(c3_order_preserving c1Input).1,
   (c3_order_preserving c1Input).2.2
     (0, J.obj [("role", J.str "user"), ("content", J.str "hi")]) (List.Mem.head _)⟩

end Codex

namespace Codex

/-! ### C4: user-final histories attach no reasoning -/

theorem emitItem_no_reasoning_keys (idx : Nat) (la : Option String)
    (item : ResponseItem) (msg : J)
    (h : (emitItem ([] : AnchorMap) idx la item).2 = some msg) :
    jLookup msg "reasoning" = none ∧ jLookup msg "reasoning_content" = none
      ∧ jLookup msg "reasoning_details" = none := by
  cases item with
  | message role content =>
    by_cases hr : role = "assistant"
    · by_cases hla : la = some (concatText content)
      · simp [emitItem, hr, hla] at h
      · simp [emitItem, hr, hla] at h
        subst h
        exact ⟨rfl, rfl, rfl⟩
    · simp [emitItem, hr] at h
      subst h
      exact ⟨rfl, rfl, rfl⟩
  | functionCall name arguments call_id =>
    simp [emitItem] at h
    subst h
    exact ⟨rfl, rfl, rfl⟩
  | localShellCall id status action =>
    simp [emitItem] at h
    subst h
    exact ⟨rfl, rfl, rfl⟩
  | functionCallOutput call_id output =>
    simp [emitItem] at h
    subst h
    exact ⟨rfl, rfl, rfl⟩
  | customToolCall id name input =>
    simp [emitItem] at h
    subst h
    exact ⟨rfl, rfl, rfl⟩
  | customToolCallOutput call_id output =>
    simp [emitItem] at h
    subst h
    exact ⟨rfl, rfl, rfl⟩
  | reasoning content details source => simp [emitItem] at h
  | webSearchCall => simp [emitItem] at h
  | ghostSnapshot => simp [emitItem] at h
  | compaction => simp [emitItem] at h
  | other => simp [emitItem] at h

theorem assembleGoIdx_empty_anchor_no_keys (l : List ResponseItem) :
    ∀ (idx : Nat) (la : Option String) (msg : J),
      msg ∈ (assembleGoIdx ([] : AnchorMap) idx la l).map Prod.snd →
      jLookup msg "reasoning" = none ∧ jLookup msg "reasoning_content" = none
        ∧ jLookup msg "reasoning_details" = none := by
  induction l with
  | nil =>
    intro idx la msg hm
    simp [assembleGoIdx] at hm
  | cons item rest ih =>
    intro idx la msg hm
    cases h : (emitItem ([] : AnchorMap) idx la item).2 with
    | some m =>
      rw [assembleGoIdx_cons_emit _ idx la item rest m h] at hm
      simp only [List.map_cons] at hm
      rcases List.mem_cons.mp hm with hm2 | hm2
      · rw [hm2]
        exact emitItem_no_reasoning_keys idx la item m h
      · exact ih (idx + 1) (stepAssist la item) msg hm2
    | none =>
      rw [assembleGoIdx_cons_skip _ idx la item rest h] at hm
      exact ih (idx + 1) (stepAssist la item) msg hm

/-- C4.  When the tracked last role is `user`, the reasoning-attachment
mapping is empty, and consequently no emitted wire message carries any of
the three reasoning fields. -/
theorem c4_user_last_empty_mapping (input : List ResponseItem)
    (h : lastEmittedRole input = some "user") :
    resolveReasoning input = []
    ∧ ∀ msg ∈ assembleMessages input (resolveReasoning input),
        jLookup msg "reasoning" = none ∧ jLookup msg "reasoning_content" = none
          ∧ jLookup msg "reasoning_details" = none := by
  have hmap : resolveReasoning input = [] := by simp [resolveReasoning, h]
  refine ⟨hmap, ?_⟩
  rw [hmap]
  intro msg hm
  exact assembleGoIdx_empty_anchor_no_keys input 0 none msg hm

/-- Witness for C4 on a history ending in a user message: the mapping is
empty and the assistant's wire message has no reasoning field. -/
theorem c4_user_last_empty_mapping_witness :
    lastEmittedRole c4Fixture = some "user"
    ∧ resolveReasoning c4Fixture = []
    ∧ jLookup (J.obj [("role", J.str "assistant"), ("content", J.str "a")]) "reasoning" = none :=
  ⟨rfl, (c4_user_last_empty_mapping c4Fixture rfl).1,
   ((c4_user_last_empty_mapping c4Fixture rfl).2
      (J.obj [("role", J.str "assistant"), ("content", J.str "a")]) (List.Mem.head _)).1⟩

end Codex

namespace Codex

/-! ### Splitting the assembler run at a position -/

theorem assembleGoIdx_append (anchors : AnchorMap) (xs ys : List ResponseItem) :
    ∀ (idx : Nat) (la : Option String),
      assembleGoIdx anchors idx la (xs ++ ys)
        = assembleGoIdx anchors idx la xs
            ++ assembleGoIdx anchors (idx + xs.length) (xs.foldl stepAssist la) ys := by
  induction xs with
  | nil =>
    intro idx la
    simp [assembleGoIdx]
  | cons item rest ih =>
    intro idx la
    have harith : idx + 1 + rest.length = idx + (rest.length + 1) := by omega
    cases h : (emitItem anchors idx la item).2 with
    | some msg =>
      rw [List.cons_append, assembleGoIdx_cons_emit anchors idx la item (rest ++ ys) msg h,
          ih (idx + 1) (stepAssist la item),
          assembleGoIdx_cons_emit anchors idx la item rest msg h]
      simp only [List.cons_append, List.foldl_cons, List.length_cons]
      rw [harith]
    | none =>
      rw [List.cons_append, assembleGoIdx_cons_skip anchors idx la item (rest ++ ys) h,
          ih (idx + 1) (stepAssist la item),
          assembleGoIdx_cons_skip anchors idx la item rest h]
      simp only [List.foldl_cons, List.length_cons]
      rw [harith]

theorem stepAssist_assistant (la : Option String) (c : List ContentItem) :
    stepAssist la (ResponseItem.message "assistant" c) = some (concatText c) := by
  simp [stepAssist]

theorem emitItem_assistant_drop (anchors : AnchorMap) (idx : Nat) (la : Option String)
    (c : List ContentItem) (h : la = some (concatText c)) :
    emitItem anchors idx la (ResponseItem.message "assistant" c) = (la, none) := by
  simp [emitItem, h]

theorem emitItem_assistant_emit (anchors : AnchorMap) (idx : Nat) (la : Option String)
    (c : List ContentItem) (h : la ≠ some (concatText c)) :
    (emitItem anchors idx la (ResponseItem.message "assistant" c)).2
      = some (J.obj (foldReasoning anchors idx
          [("role", J.str "assistant"), ("content", J.str (concatText c))])) := by
  simp [emitItem, h]

theorem tags_after_duplicate (anchors : AnchorMap) (i : Nat) (la0 : Option String)
    (c1 c2 : List ContentItem) (suf : List ResponseItem)
    (heq : concatText c1 = concatText c2) :
    ∀ x ∈ (assembleGoIdx anchors i la0
        (ResponseItem.message "assistant" c1 :: ResponseItem.message "assistant" c2 :: suf)).map
          Prod.fst, x = i ∨ i + 2 ≤ x := by
  intro x hx
  by_cases hla : la0 = some (concatText c1)
  · rw [assembleGoIdx_cons_skip anchors i la0 (ResponseItem.message "assistant" c1)
        (ResponseItem.message "assistant" c2 :: suf)
        (by rw [emitItem_assistant_drop anchors i la0 c1 hla])] at hx
    rw [stepAssist_assistant] at hx
    rw [assembleGoIdx_cons_skip anchors (i + 1) (some (concatText c1))
        (ResponseItem.message "assistant" c2) suf
        (by rw [emitItem_assistant_drop anchors (i + 1) (some (concatText c1)) c2
              (by rw [heq])])] at hx
    rw [stepAssist_assistant] at hx
    obtain ⟨p, hp, hpx⟩ := List.mem_map.mp hx
    have := (assembleGoIdx_mem anchors suf (i + 1 + 1) (some (concatText c2)) p hp).1
    omega
  · rw [assembleGoIdx_cons_emit anchors i la0 (ResponseItem.message "assistant" c1)
        (ResponseItem.message "assistant" c2 :: suf) _
        (emitItem_assistant_emit anchors i la0 c1 hla)] at hx
    rw [stepAssist_assistant] at hx
    simp only [List.map_cons] at hx
    rcases List.mem_cons.mp hx with hx | hx
    · left
      exact hx
    · rw [assembleGoIdx_cons_skip anchors (i + 1) (some (concatText c1))
          (ResponseItem.message "assistant" c2) suf
          (by rw [emitItem_assistant_drop anchors (i + 1) (some (concatText c1)) c2
                (by rw [heq])])] at hx
      rw [stepAssist_assistant] at hx
      obtain ⟨p, hp, hpx⟩ := List.mem_map.mp hx
      have := (assembleGoIdx_mem anchors suf (i + 1 + 1) (some (concatText c2)) p hp).1
      omega

theorem tags_second_emitted (anchors : AnchorMap) (i : Nat) (la0 : Option String)
    (c1 c2 : List ContentItem) (suf : List ResponseItem)
    (hne : concatText c1 ≠ concatText c2) :
    i + 1 ∈ (assembleGoIdx anchors i la0
        (ResponseItem.message "assistant" c1 :: ResponseItem.message "assistant" c2 :: suf)).map
          Prod.fst := by
  have hemit : (emitItem anchors (i + 1) (some (concatText c1))
      (ResponseItem.message "assistant" c2)).2
        = some (J.obj (foldReasoning anchors (i + 1)
            [("role", J.str "assistant"), ("content", J.str (concatText c2))])) :=
    emitItem_assistant_emit anchors (i + 1) (some (concatText c1)) c2
      (fun hcon => hne (Option.some.inj hcon))
  by_cases hla : la0 = some (concatText c1)
  · rw [assembleGoIdx_cons_skip anchors i la0 (ResponseItem.message "assistant" c1)
        (ResponseItem.message "assistant" c2 :: suf)
        (by rw [emitItem_assistant_drop anchors i la0 c1 hla])]
    rw [stepAssist_assistant]
    rw [assembleGoIdx_cons_emit anchors (i + 1) (some (concatText c1))
        (ResponseItem.message "assistant" c2) suf _ hemit]
    rw [List.map_cons]
    exact List.mem_cons_self _ _
  · rw [assembleGoIdx_cons_emit anchors i la0 (ResponseItem.message "assistant" c1)
        (ResponseItem.message "assistant" c2 :: suf) _
        (emitItem_assistant_emit anchors i la0 c1 hla)]
    rw [stepAssist_assistant]
    rw [List.map_cons]
    apply List.mem_cons_of_mem
    rw [assembleGoIdx_cons_emit anchors (i + 1) (some (concatText c1))
        (ResponseItem.message "assistant" c2) suf _ hemit]
    rw [List.map_cons]
    exact List.mem_cons_self _ _

theorem tags_first_emitted (anchors : AnchorMap) (i : Nat) (la0 : Option String)
    (c : List ContentItem) (rest : List ResponseItem)
    (hne : la0 ≠ some (concatText c)) :
    i ∈ (assembleGoIdx anchors i la0 (ResponseItem.message "assistant" c :: rest)).map
        Prod.fst := by
  rw [assembleGoIdx_cons_emit anchors i la0 (ResponseItem.message "assistant" c) rest _
      (emitItem_assistant_emit anchors i la0 c hne)]
  rw [List.map_cons]
  exact List.mem_cons_self _ _

end Codex

namespace Codex

/-! ### C6: duplicate suppression of assistant messages -/

/-- C6.  For two consecutive assistant messages: with identical concatenated
text the second one is never emitted and the tracked last-assistant-text
state is unchanged by it; with non-identical text the second one is always
emitted; and an assistant message whose text differs from the tracked state
(the text of the closest preceding assistant message, if any) is always
emitted. -/
theorem c6_duplicate_suppression (anchors : AnchorMap) (pre suf : List ResponseItem)
    (c1 c2 : List ContentItem) (input : List ResponseItem)
    (hinput : input
      = pre ++ ResponseItem.message "assistant" c1
          :: ResponseItem.message "assistant" c2 :: suf) :
    (concatText c1 = concatText c2 →
      pre.length + 1 ∉ (assembleGoIdx anchors 0 none input).map Prod.fst
      ∧ (pre ++ [ResponseItem.message "assistant" c1,
          ResponseItem.message "assistant" c2]).foldl stepAssist none
        = (pre ++ [ResponseItem.message "assistant" c1]).foldl stepAssist none)
    ∧ (concatText c1 ≠ concatText c2 →
        pre.length + 1 ∈ (assembleGoIdx anchors 0 none input).map Prod.fst)
    ∧ (pre.foldl stepAssist none ≠ some (concatText c1) →
        pre.length ∈ (assembleGoIdx anchors 0 none input).map Prod.fst) := by
  subst hinput
  refine ⟨fun heq => ⟨?_, ?_⟩, fun hne => ?_, fun hne => ?_⟩
  · intro hmem
    rw [assembleGoIdx_append anchors pre _ 0 none, List.map_append] at hmem
    rcases List.mem_append.mp hmem with hmem | hmem
    · obtain ⟨p, hp, hpx⟩ := List.mem_map.mp hmem
      have hb := (assembleGoIdx_mem anchors pre 0 none p hp).2.1
      omega
    · simp only [Nat.zero_add] at hmem
      rcases tags_after_duplicate anchors pre.length (pre.foldl stepAssist none) c1 c2 suf heq
          (pre.length + 1) hmem with h | h
      · omega
      · omega
  · rw [List.foldl_append, List.foldl_append]
    simp only [List.foldl_cons, List.foldl_nil, stepAssist_assistant]
    rw [heq]
  · rw [assembleGoIdx_append anchors pre _ 0 none, List.map_append]
    apply List.mem_append_right
    simp only [Nat.zero_add]
    exact tags_second_emitted anchors pre.length (pre.foldl stepAssist none) c1 c2 suf hne
  · rw [assembleGoIdx_append anchors pre _ 0 none, List.map_append]
    apply List.mem_append_right
    simp only [Nat.zero_add]
    exact tags_first_emitted anchors pre.length (pre.foldl stepAssist none) c1 _ hne

/-- Witness for C6 on two identical assistant messages "a": the second
(position 1) is not emitted, the first (position 0) is. -/
theorem c6_duplicate_suppression_witness :
    (1 : Nat) ∉ (assembleGoIdx ([] : AnchorMap) 0 none
        [ResponseItem.message "assistant" [ContentItem.outputText "a"],
         ResponseItem.message "assistant" [ContentItem.outputText "a"]]).map Prod.fst
    ∧ (0 : Nat) ∈ (assembleGoIdx ([] : AnchorMap) 0 none
        [ResponseItem.message "assistant" [ContentItem.outputText "a"],
         ResponseItem.message "assistant" [ContentItem.outputText "a"]]).map Prod.fst :=
  ⟨((c6_duplicate_suppression [] [] [] [ContentItem.outputText "a"]
      [ContentItem.outputText "a"] _ rfl).1 rfl).1,
   (c6_duplicate_suppression [] [] [] [ContentItem.outputText "a"]
      [ContentItem.outputText "a"] _ rfl).2.2 (fun h => nomatch h)⟩

/-! ### C10: an attachment anchored on a suppressed duplicate is discarded -/

theorem lookupAnchor_eraseAnchor (m : AnchorMap) (k j : Nat) (h : j ≠ k) :
    lookupAnchor (eraseAnchor m k) j = lookupAnchor m j := by
  induction m with
  | nil => rfl
  | cons hd tl ih =>
    obtain ⟨k0, v0⟩ := hd
    by_cases h0 : k0 = k
    · subst h0
      have hkj : ¬ k0 = j := fun hc => h hc.symm
      simp [eraseAnchor, lookupAnchor, hkj, ih]
    · simp [eraseAnchor, lookupAnchor, h0, ih]

theorem emitItem_congr (m1 m2 : AnchorMap) (idx : Nat) (la : Option String)
    (item : ResponseItem) (h : lookupAnchor m1 idx = lookupAnchor m2 idx) :
    emitItem m1 idx la item = emitItem m2 idx la item := by
  cases item <;> simp only [emitItem, foldReasoning, h]

theorem assembleGoIdx_congr (m1 m2 : AnchorMap) (l : List ResponseItem) :
    ∀ (idx : Nat) (la : Option String),
      (∀ j, idx ≤ j → j < idx + l.length → lookupAnchor m1 j = lookupAnchor m2 j) →
      assembleGoIdx m1 idx la l = assembleGoIdx m2 idx la l := by
  induction l with
  | nil =>
    intro idx la h
    rfl
  | cons item rest ih =>
    intro idx la h
    have hidx := h idx (Nat.le_refl _) (by simp)
    have hrec := ih (idx + 1) (stepAssist la item)
      (fun j hj1 hj2 => h j (by omega) (by simp only [List.length_cons] at hj2 ⊢; omega))
    cases hm : (emitItem m1 idx la item).2 with
    | some msg =>
      have hm2 : (emitItem m2 idx la item).2 = some msg := by
        rw [← emitItem_congr m1 m2 idx la item hidx]
        exact hm
      rw [assembleGoIdx_cons_emit m1 idx la item rest msg hm,
          assembleGoIdx_cons_emit m2 idx la item rest msg hm2, hrec]
    | none =>
      have hm2 : (emitItem m2 idx la item).2 = none := by
        rw [← emitItem_congr m1 m2 idx la item hidx]
        exact hm
      rw [assembleGoIdx_cons_skip m1 idx la item rest hm,
          assembleGoIdx_cons_skip m2 idx la item rest hm2, hrec]

/-- C10.  When the assistant message at a position is dropped by duplicate
suppression, a reasoning attachment anchored at that position is silently
discarded: the position is never emitted, and the whole output is the same
as if the anchor entry did not exist. -/
theorem c10_discarded_attachment (anchors : AnchorMap) (pre suf : List ResponseItem)
    (c : List ContentItem) (input : List ResponseItem)
    (hinput : input = pre ++ ResponseItem.message "assistant" c :: suf)
    (hdup : pre.foldl stepAssist none = some (concatText c)) :
    pre.length ∉ (assembleGoIdx anchors 0 none input).map Prod.fst
    ∧ assembleMessages input anchors
        = assembleMessages input (eraseAnchor anchors pre.length) := by
  subst hinput
  constructor
  · intro hmem
    rw [assembleGoIdx_append anchors pre _ 0 none, List.map_append] at hmem
    rcases List.mem_append.mp hmem with hmem | hmem
    · obtain ⟨p, hp, hpx⟩ := List.mem_map.mp hmem
      have hb := (assembleGoIdx_mem anchors pre 0 none p hp).2.1
      omega
    · simp only [Nat.zero_add] at hmem
      rw [assembleGoIdx_cons_skip anchors pre.length _ (ResponseItem.message "assistant" c) suf
          (by rw [emitItem_assistant_drop anchors pre.length _ c hdup])] at hmem
      obtain ⟨p, hp, hpx⟩ := List.mem_map.mp hmem
      have := (assembleGoIdx_mem anchors suf (pre.length + 1) _ p hp).1
      omega
  · unfold assembleMessages
    congr 1
    rw [assembleGoIdx_append anchors pre _ 0 none,
        assembleGoIdx_append (eraseAnchor anchors pre.length) pre _ 0 none]
    congr 1
    · exact assembleGoIdx_congr anchors (eraseAnchor anchors pre.length) pre 0 none
        (fun j hj1 hj2 =>
          (lookupAnchor_eraseAnchor anchors pre.length j (by simp at hj2; omega)).symm)
    · simp only [Nat.zero_add]
      rw [assembleGoIdx_cons_skip anchors pre.length _ (ResponseItem.message "assistant" c) suf
          (by rw [emitItem_assistant_drop anchors pre.length _ c hdup]),
          assembleGoIdx_cons_skip (eraseAnchor anchors pre.length) pre.length _
            (ResponseItem.message "assistant" c) suf
          (by rw [emitItem_assistant_drop (eraseAnchor anchors pre.length) pre.length _ c hdup])]
      exact assembleGoIdx_congr anchors (eraseAnchor anchors pre.length) suf (pre.length + 1) _
        (fun j hj1 hj2 => (lookupAnchor_eraseAnchor anchors pre.length j (by omega)).symm)

/-- Witness for C10: the duplicate assistant message at position 1 is
suppressed; the attachment anchored there influences nothing, so the output
equals the output with the anchor entry removed. -/
theorem c10_discarded_attachment_witness :
    [ResponseItem.message "assistant" [ContentItem.outputText "a"]].foldl stepAssist none
        = some (concatText [ContentItem.outputText "a"])
    ∧ (1 : Nat) ∉ (assembleGoIdx [(1, ⟨"lost", none, none⟩)] 0 none
        [ResponseItem.message "assistant" [ContentItem.outputText "a"],
         ResponseItem.message "assistant" [ContentItem.outputText "a"]]).map Prod.fst
    ∧ assembleMessages
        [ResponseItem.message "assistant" [ContentItem.outputText "a"],
         ResponseItem.message "assistant" [ContentItem.outputText "a"]]
        [(1, ⟨"lost", none, none⟩)]
      = assembleMessages
          [ResponseItem.message "assistant" [ContentItem.outputText "a"],
           ResponseItem.message "assistant" [ContentItem.outputText "a"]]
          (eraseAnchor [(1, ⟨"lost", none, none⟩)] 1) :=
  ⟨rfl,
   (c10_discarded_attachment [(1, ⟨"lost", none, none⟩)]
      [ResponseItem.message "assistant" [ContentItem.outputText "a"]] []
      [ContentItem.outputText "a"] _ rfl rfl).1,
   (c10_discarded_attachment [(1, ⟨"lost", none, none⟩)]
      [ResponseItem.message "assistant" [ContentItem.outputText "a"]] []
      [ContentItem.outputText "a"] _ rfl rfl).2⟩

end Codex
